import Mathlib

/-!
Shallow embedding of the bgcaexplorer data layer: the archive loader
(`src/js/archive-loader.js`), the in-memory query engine (`DataManager` in
`src/unnamed/part_004`) and the comment analytics (`src/unnamed/part_000`),
together with theorems settling the frozen specification claims.

JavaScript semantics are made explicit: machine numbers appearing here are
integral throughout the code paths modelled, so they are embedded as `Int`/`Nat`;
string-keyed objects are embedded as insertion-ordered association lists;
`Array.prototype.sort` (stable since ES2019) is embedded as a stable insertion
sort on the comparator-derived relation; asynchronous loads are embedded as
explicit parameters and explicit state passing.
-/

namespace BGCA

/-- ASCII whitespace recognised by the JS `\s` class and by `parseInt` skipping
(space, tab, LF, VT, FF, CR): the archive data is ASCII in the relevant fields. -/
def jsIsSpace (c : Char) : Bool :=
  c = ' ' || c = '\t' || c = '\n' || c = '\r' || c.val = 11 || c.val = 12

/-- Value of a run of decimal digit characters. -/
def digitsVal (cs : List Char) : Nat :=
  cs.foldl (fun acc c => acc * 10 + (c.toNat - 48)) 0

/-- JS `parseInt` with default radix on the decimal forms the archive metadata
uses: skip leading whitespace, optional sign, longest leading run of decimal
digits; no digits yields NaN, embedded as `none`. -/
def jsParseInt (s : String) : Option Int :=
  let cs := s.data.dropWhile jsIsSpace
  let signAndRest : Int × List Char :=
    match cs with
    | '-' :: rest => (-1, rest)
    | '+' :: rest => (1, rest)
    | _ => (1, cs)
  let digits := signAndRest.2.takeWhile Char.isDigit
  if digits.isEmpty then none
  else some (signAndRest.1 * (digitsVal digits : Int))

/-- JS `parseInt(x) || 0` applied to an optional string field chained with a
null secondary source (`metadataEntry?.f || infoData?.f` with `infoData = null`):
a missing or empty (falsy) string, or a NaN parse, collapses to 0. -/
def parseCountField (v : Option String) : Int :=
  match v with
  | some s => if s = "" then 0 else (jsParseInt s).getD 0
  | none => 0

/-- JS `a || b` for an optional string field: missing and empty strings are falsy. -/
def strOrElse (a : Option String) (b : String) : String :=
  match a with
  | some s => if s = "" then b else s
  | none => b

/-- JS `a || null` for an optional string field. -/
def strOrNull (a : Option String) : Option String :=
  match a with
  | some s => if s = "" then none else some s
  | none => none

/-- Assignment `obj[k] = v` on a string-keyed JS object embedded as an
insertion-ordered association list: replace in place, or append a fresh key. -/
def objSet {α : Type} : List (String × α) → String → α → List (String × α)
  | [], k, v => [(k, v)]
  | (k0, v0) :: rest, k, v =>
      if k0 = k then (k0, v) :: rest else (k0, v0) :: objSet rest k v

/-- Whether a string-keyed object has a key (`k in obj`). -/
def hasKey {α : Type} (m : List (String × α)) (k : String) : Bool :=
  m.any (fun p => p.1 = k)

/-- One step of JS `Set` construction: keep the first occurrence. -/
def insertUniq (acc : List String) (x : String) : List String :=
  if x ∈ acc then acc else acc ++ [x]

/-- JS `new Set(list)` read back in iteration order: first occurrences, in
insertion order. -/
def jsSetOfList (xs : List String) : List String := xs.foldl insertUniq []

/-- Whether `pat` is a prefix of `s` (over character lists). -/
def startsWithList : List Char → List Char → Bool
  | _, [] => true
  | [], _ :: _ => false
  | a :: as, p :: ps => (a = p) && startsWithList as ps

/-- Whether `pat` occurs as a contiguous run inside `s` (over character lists). -/
def hasSubstr : List Char → List Char → Bool
  | [], pat => pat.isEmpty
  | c :: rest, pat => startsWithList (c :: rest) pat || hasSubstr rest pat

/-- JS `String.prototype.includes`. -/
def jsIncludes (s sub : String) : Bool := hasSubstr s.data sub.data

/-- `String.prototype.toLowerCase` on the ASCII text the archive holds
(implemented over the character list so that proofs can evaluate it). -/
def jsToLower (s : String) : String := String.mk (s.data.map Char.toLower)

/-- Stable insertion of `x` into `l`: `x` is placed before the first element it
compares less-or-equal to, so earlier elements stay ahead of later equal ones. -/
def insSorted {α : Type} (le : α → α → Bool) (x : α) : List α → List α
  | [] => [x]
  | y :: ys => if le x y then x :: y :: ys else y :: insSorted le x ys

/-- `Array.prototype.sort` with comparator `cmp`, embedded as the stable sort on
`le a b := cmp a b ≤ 0` (the sort is stable per ES2019 and the comparators in
this code are consistent, so this is the observable behaviour). -/
def stableSort {α : Type} (le : α → α → Bool) (l : List α) : List α :=
  l.foldr (insSorted le) []

/-- `Math.ceil(a / b)` for natural `a` and positive natural `b`. -/
def ceilDiv (a b : Nat) : Nat := (a + b - 1) / b

/-- `Array.prototype.slice(s, e)` for the non-negative in-range indices produced
by 1-indexed pagination. -/
def jsSlice {α : Type} (l : List α) (s e : Nat) : List α := (l.take e).drop s

/-! ## Archive loader (`src/js/archive-loader.js`) -/

/-- One entry of `videos.json` (`metadata` in `buildVideoData`): the string
fields the loader reads, each possibly absent. -/
structure MetadataEntry where
  video_id : String
  title : Option String := none
  description : Option String := none
  published_at : Option String := none
  channel_id : Option String := none
  channel_title : Option String := none
  view_count : Option String := none
  like_count : Option String := none
  comment_count : Option String := none
  duration : Option String := none
  thumbnail_url : Option String := none
deriving DecidableEq

/-- The four id-to-locator maps built by discovery (`discovery.transcripts`,
`.summaries`, `.comments`, `.videos`). -/
structure Discovery where
  transcripts : List (String × String)
  summaries : List (String × String)
  comments : List (String × String)
  videos : List (String × String)
deriving DecidableEq

/-- An assembled video record as produced by `buildVideoData` (`scraped_at`,
a wall-clock timestamp, is the one field left out of the embedding). -/
structure VideoData where
  video_id : String
  title : String
  description : String
  published_at : String
  channel_id : Option String
  channel_title : String
  view_count : Int
  like_count : Int
  comment_count : Int
  duration : Int
  thumbnail_url : String
  has_transcript : Bool
  has_summary : Bool
  has_comments : Bool
  has_video_file : Bool
  keywords : List String
  video_file : Option String
deriving DecidableEq

/-- `allShortcodes` in `buildVideoData`: the JS `Set` of ids over the keys of
the four discovery maps, in insertion order. -/
def discoveryIds (d : Discovery) : List String :=
  jsSetOfList (d.transcripts.map Prod.fst ++ d.summaries.map Prod.fst ++
    d.comments.map Prod.fst ++ d.videos.map Prod.fst)

/-- `ArchiveLoader.buildVideoData`, with the awaited loads (`keywords`,
`discovery`, `metadata`) passed as parameters and `infoData` fixed to `null` as
in the source. -/
def buildRecord (metadata : List MetadataEntry) (d : Discovery)
    (keywords : List (String × List String)) (shortcode : String) : VideoData :=
  let entry := metadata.find? (fun e => e.video_id = shortcode)
  { video_id := shortcode
    title := strOrElse (entry.bind (fun e => e.title)) ("BGCA Video " ++ shortcode)
    description := strOrElse (entry.bind (fun e => e.description)) ""
    published_at := strOrElse (entry.bind (fun e => e.published_at)) ""
    channel_id := strOrNull (entry.bind (fun e => e.channel_id))
    channel_title := strOrElse (entry.bind (fun e => e.channel_title))
      "Boys & Girls Clubs of America"
    view_count := parseCountField (entry.bind (fun e => e.view_count))
    like_count := parseCountField (entry.bind (fun e => e.like_count))
    comment_count := parseCountField (entry.bind (fun e => e.comment_count))
    duration := parseCountField (entry.bind (fun e => e.duration))
    thumbnail_url := strOrElse (entry.bind (fun e => e.thumbnail_url)) ""
    has_transcript := hasKey d.transcripts shortcode
    has_summary := hasKey d.summaries shortcode
    has_comments := hasKey d.comments shortcode
    has_video_file := hasKey d.videos shortcode
    keywords := (keywords.lookup shortcode).getD []
    video_file := d.videos.lookup shortcode }

/-- `ArchiveLoader.buildVideoData` maps the per-shortcode record builder over
the discovered id universe. -/
def buildVideoData (metadata : List MetadataEntry) (d : Discovery)
    (keywords : List (String × List String)) : List VideoData :=
  (discoveryIds d).map (buildRecord metadata d keywords)

/-- Truthiness of `bulkIndex[shortcode]` for a bulk JSON object of payload
strings: a missing key and an empty payload are both falsy. -/
def truthyLookup (m : List (String × String)) (k : String) : Bool :=
  match m.lookup k with
  | some v => v ≠ ""
  | none => false

/-- The map-building loop of `ArchiveLoader.fallbackDiscovery`: for each
metadata entry with a truthy `video_id`, record a transcript, summary or
comments locator when the corresponding bulk index has a truthy entry for the
id, and always record an assumed `<id>.mp4` video locator. -/
def discoveryStep (transcripts summaries comments : List (String × String))
    (d : Discovery) (entry : MetadataEntry) : Discovery :=
  let shortcode := entry.video_id
  if shortcode ≠ "" then
    { transcripts := if truthyLookup transcripts shortcode then
        objSet d.transcripts shortcode (shortcode ++ ".txt") else d.transcripts
      summaries := if truthyLookup summaries shortcode then
        objSet d.summaries shortcode (shortcode ++ "_summary.txt") else d.summaries
      comments := if truthyLookup comments shortcode then
        objSet d.comments shortcode (shortcode ++ "_comments.json") else d.comments
      videos := objSet d.videos shortcode (shortcode ++ ".mp4") }
  else d

/-- `ArchiveLoader.fallbackDiscovery` folds `discoveryStep` over the metadata
entries, starting from four empty maps. -/
def fallbackDiscovery (metadata : List MetadataEntry)
    (transcripts summaries comments : List (String × String)) : Discovery :=
  metadata.foldl (discoveryStep transcripts summaries comments) ⟨[], [], [], []⟩

/-- A character allowed by the 11-character identifier grammar
(`[a-zA-Z0-9_-]`, the class used by `extractShortcode`). -/
def isShortcodeChar (c : Char) : Bool :=
  c.isAlpha || c.isDigit || c = '_' || c = '-'

/-- The 11-character identifier grammar of the spec data model: exactly 11
alphanumeric, underscore or hyphen characters. -/
def isValidShortcode (s : String) : Bool :=
  s.data.length = 11 && s.data.all isShortcodeChar

/-! ## Transcript resolution (`ArchiveLoader.loadTranscript`) -/

/-- A resolved transcript payload (`{video_id, transcript, source_file}`). -/
structure TranscriptPayload where
  video_id : String
  transcript : String
  source_file : String
deriving DecidableEq

/-- The sources `loadTranscript` can consult. `subtitlesDir` is the file map of
`bgca_yt_subtitles` (`none`: opening the folder throws), `explorerIndex` the
parsed `bgca_yt_explorer_data/transcripts.json` (`none`: folder or file
missing), `serverIndex` the payload of the bundled `./data/transcripts.json`
served when `serverOk`. -/
structure TranscriptWorld where
  hasDirectory : Bool
  subtitlesDir : Option (List (String × String))
  explorerIndex : Option (List (String × String))
  serverOk : Bool
  serverIndex : List (String × String)
deriving DecidableEq

/-- The transcript filename patterns tried inside `bgca_yt_subtitles`, in order. -/
def transcriptFilePatterns (sc : String) : List String :=
  [sc ++ "_en_auto_ytdlp.txt", sc ++ ".txt", sc ++ "_en.txt", sc ++ "_transcript.txt"]

/-- First pattern that names an existing file, with its content. Failed
`getFileHandle` probes read no file content. -/
def findFirstFile (files : List (String × String)) : List String → Option (String × String)
  | [] => none
  | p :: ps =>
    match files.lookup p with
    | some content => some (p, content)
    | none => findFirstFile files ps

/-- The final fallback of `loadTranscript`: fetch the bundled
`./data/transcripts.json` (one fetch is issued whether or not the response is
usable) and index it by id; a hit is cached, a miss is not. -/
def transcriptServerStep (w : TranscriptWorld) (cache : List (String × TranscriptPayload))
    (key sc : String) (reads : Nat) :
    Option TranscriptPayload × List (String × TranscriptPayload) × Nat :=
  if w.serverOk then
    match w.serverIndex.lookup sc with
    | some txt =>
        let t : TranscriptPayload := ⟨sc, txt, "included_data/transcripts.json"⟩
        (some t, objSet cache key t, reads + 1)
    | none => (none, cache, reads + 1)
  else (none, cache, reads + 1)

/-- `ArchiveLoader.loadTranscript` as explicit state passing: given the world
and the cache, return the result, the new cache, and how many underlying
fetches/reads of file or network content were issued by this call. -/
def loadTranscript (w : TranscriptWorld) (cache : List (String × TranscriptPayload))
    (sc : String) : Option TranscriptPayload × List (String × TranscriptPayload) × Nat :=
  let key := "transcript_" ++ sc
  match cache.lookup key with
  | some t => (some t, cache, 0)
  | none =>
    if w.hasDirectory then
      match w.subtitlesDir with
      | some files =>
        match findFirstFile files (transcriptFilePatterns sc) with
        | some pc =>
            let t : TranscriptPayload := ⟨sc, pc.2, "bgca_yt_subtitles/" ++ pc.1⟩
            (some t, objSet cache key t, 1)
        | none => transcriptServerStep w cache key sc 0
      | none =>
        match w.explorerIndex with
        | some idx =>
          match idx.lookup sc with
          | some txt =>
              let t : TranscriptPayload := ⟨sc, txt, "bgca_yt_explorer_data/transcripts.json"⟩
              (some t, objSet cache key t, 1)
          | none => transcriptServerStep w cache key sc 1
        | none => transcriptServerStep w cache key sc 0
    else transcriptServerStep w cache key sc 0

/-! ## Query engine (`DataManager` in `src/unnamed/part_004`) -/

/-- A video as held by `DataManager.videos` after load-time processing:
`published_at` is a `Date` embedded as its integral timestamp, `none` standing
for an Invalid Date (every NaN comparison is false). -/
structure Video where
  video_id : String
  title : String
  description : Option String
  published_at : Option Int
  view_count : Int
  comment_count : Int
deriving DecidableEq

/-- The optional filters of `DataManager.getVideos`; absent and empty-string
(falsy) values deactivate a filter, the date bounds are already-constructed
valid `Date` values, and the minimum-count bounds are the raw strings the UI
passes to `parseInt`. -/
structure VideoFilters where
  search : Option String := none
  dateFrom : Option Int := none
  dateTo : Option Int := none
  minViews : Option String := none
  minComments : Option String := none
  sortBy : Option String := none
deriving DecidableEq

/-- `published_at >= bound` on a `Date`: false when the date is Invalid (NaN). -/
def dateGe (a : Option Int) (b : Int) : Bool :=
  match a with
  | some t => b ≤ t
  | none => false

/-- `published_at <= bound` on a `Date`: false when the date is Invalid (NaN). -/
def dateLe (a : Option Int) (b : Int) : Bool :=
  match a with
  | some t => t ≤ b
  | none => false

/-- `count >= parseInt(bound)`: false when the bound parses to NaN. -/
def jsGeNum (a : Int) (b : Option Int) : Bool :=
  match b with
  | some n => n ≤ a
  | none => false

/-- One `if (filters.x) { filtered = filtered.filter(...) }` stage guarded by a
string-valued filter field: absent and empty (falsy) values skip the stage. -/
def optStrFilter {α : Type} (o : Option String) (p : String → α → Bool)
    (l : List α) : List α :=
  match o with
  | some s => if s = "" then l else l.filter (p s)
  | none => l

/-- One `if (filters.x) { filtered = filtered.filter(...) }` stage guarded by a
date-valued filter field (already a constructed bound when present). -/
def optIntFilter {α : Type} (o : Option Int) (p : Int → α → Bool)
    (l : List α) : List α :=
  match o with
  | some b => l.filter (p b)
  | none => l

/-- The filter pipeline of `DataManager.getVideos`: free-text search over
title and optional description (`video.description?.toLowerCase()` is
undefined, hence falsy, when the description is absent), dateFrom, dateTo,
minViews, minComments, applied in source order and AND-combined. -/
def filterVideos (f : VideoFilters) (videos : List Video) : List Video :=
  let l1 := optStrFilter f.search (fun s v =>
      jsIncludes (jsToLower v.title) (jsToLower s) ||
      (match v.description with
       | some d => jsIncludes (jsToLower d) (jsToLower s)
       | none => false)) videos
  let l2 := optIntFilter f.dateFrom (fun df v => dateGe v.published_at df) l1
  let l3 := optIntFilter f.dateTo (fun dt v => dateLe v.published_at dt) l2
  let l4 := optStrFilter f.minViews (fun s v => jsGeNum v.view_count (jsParseInt s)) l3
  optStrFilter f.minComments (fun s v => jsGeNum v.comment_count (jsParseInt s)) l4

/-- `a - b` on two `Date` values as the sort comparators compute it: NaN
(produced when either date is Invalid) is treated as 0 by the sort. -/
def optSub (x y : Option Int) : Int :=
  match x, y with
  | some a, some b => a - b
  | _, _ => 0

/-- `localeCompare`, embedded as code-point lexicographic comparison (locale
collation abstracted away; only the sign is consumed). -/
def strCmpInt (a b : String) : Int :=
  match compare a b with
  | Ordering.lt => -1
  | Ordering.eq => 0
  | Ordering.gt => 1

/-- The `switch (sortBy)` comparator of `DataManager.getVideos`; the default
branch sorts by date descending. -/
def videoCmp (sortBy : String) (a b : Video) : Int :=
  if sortBy = "date-asc" then optSub a.published_at b.published_at
  else if sortBy = "date-desc" then optSub b.published_at a.published_at
  else if sortBy = "views-desc" then b.view_count - a.view_count
  else if sortBy = "views-asc" then a.view_count - b.view_count
  else if sortBy = "comments-desc" then b.comment_count - a.comment_count
  else if sortBy = "comments-asc" then a.comment_count - b.comment_count
  else if sortBy = "title-asc" then strCmpInt a.title b.title
  else if sortBy = "title-desc" then strCmpInt b.title a.title
  else optSub b.published_at a.published_at

/-- `filteredVideos.sort(comparator)`. -/
def sortVideos (sortBy : String) (l : List Video) : List Video :=
  stableSort (fun a b => videoCmp sortBy a b ≤ 0) l

/-- The result shape of `DataManager.getVideos`. -/
structure VideosPage where
  videos : List Video
  total : Nat
  page : Nat
  totalPages : Nat
  hasNext : Bool
  hasPrev : Bool
deriving DecidableEq

/-- `DataManager.getVideos`: filter, sort, then slice the 1-indexed page
`[(page-1)*limit, page*limit)`, with `totalPages = ceil(total/limit)`,
`hasNext = endIndex < total`, `hasPrev = page > 1`. -/
def getVideos (videos : List Video) (f : VideoFilters) (page limit : Nat) : VideosPage :=
  let filtered := sortVideos (strOrElse f.sortBy "date-desc") (filterVideos f videos)
  let startIndex := (page - 1) * limit
  let endIndex := startIndex + limit
  { videos := jsSlice filtered startIndex endIndex
    total := filtered.length
    page := page
    totalPages := ceilDiv filtered.length limit
    hasNext := decide (endIndex < filtered.length)
    hasPrev := decide (1 < page) }

/-- A comment as held by `DataManager` after load-time processing. -/
structure CommentRec where
  comment_id : String
  video_id : String := ""
  author : String := ""
  text : String := ""
  like_count : Int := 0
  published_at : Option Int := none
  is_reply : Bool := false
  parent_comment_id : Option String := none
deriving DecidableEq

/-- A top-level comment with its attached reply list (`{...comment, replies}`). -/
structure CommentNode where
  comment : CommentRec
  replies : List CommentRec
deriving DecidableEq

/-- `reply.parent_comment_id === comment.comment_id`: an absent parent id is
never strictly equal to a string. -/
def parentMatches (r : CommentRec) (c : CommentRec) : Bool :=
  match r.parent_comment_id with
  | some p => p = c.comment_id
  | none => false

/-- The reply-grouping step shared by `DataManager.getComments` and
`DataManager.getAllComments`: partition by `is_reply`, then attach to each
top-level comment the replies whose parent id equals its id. -/
def groupComments (l : List CommentRec) : List CommentNode :=
  let topLevel := l.filter (fun c => !c.is_reply)
  let replies := l.filter (fun c => c.is_reply)
  topLevel.map (fun c => ⟨c, replies.filter (fun r => parentMatches r c)⟩)

/-- The optional filters of `DataManager.getComments`. -/
structure CommentFilters where
  search : Option String := none
  repliesOnly : Bool := false
  sortBy : Option String := none
deriving DecidableEq

/-- The filter pipeline of `getComments`: free-text match on text or author,
then the replies-only restriction. -/
def filterComments (f : CommentFilters) (l : List CommentRec) : List CommentRec :=
  let l1 := optStrFilter f.search (fun s c =>
      jsIncludes (jsToLower c.text) (jsToLower s) || jsIncludes (jsToLower c.author) (jsToLower s)) l
  if f.repliesOnly then l1.filter (fun c => c.is_reply) else l1

/-- The `switch (sortBy)` comparator of `getComments`; the default branch sorts
by likes descending. -/
def commentCmp (sortBy : String) (a b : CommentRec) : Int :=
  if sortBy = "likes-desc" then b.like_count - a.like_count
  else if sortBy = "likes-asc" then a.like_count - b.like_count
  else if sortBy = "date-desc" then optSub b.published_at a.published_at
  else if sortBy = "date-asc" then optSub a.published_at b.published_at
  else b.like_count - a.like_count

/-- `videoComments.sort(comparator)`. -/
def sortComments (sortBy : String) (l : List CommentRec) : List CommentRec :=
  stableSort (fun a b => commentCmp sortBy a b ≤ 0) l

/-- The result shape of `DataManager.getComments`. -/
structure CommentsPage where
  comments : List CommentNode
  total : Nat
  page : Nat
  totalPages : Nat
  hasNext : Bool
  hasPrev : Bool
deriving DecidableEq

/-- `DataManager.getComments` on the per-video comment list the awaited load
produced: filter, sort, group replies under top-level comments, then paginate
the list of grouped top-level nodes. -/
def getComments (videoComments : List CommentRec) (f : CommentFilters)
    (page limit : Nat) : CommentsPage :=
  let filtered := filterComments f videoComments
  let sorted := sortComments (strOrElse f.sortBy "likes-desc") filtered
  let nodes := groupComments sorted
  let startIndex := (page - 1) * limit
  { comments := jsSlice nodes startIndex (startIndex + limit)
    total := nodes.length
    page := page
    totalPages := ceilDiv nodes.length limit
    hasNext := decide (startIndex + limit < nodes.length)
    hasPrev := decide (1 < page) }

/-! ## Analytics engine (`src/unnamed/part_000`) -/

/-- The fixed stop-word set of `analyzeWordFrequency`, transcribed in source
order (the JS `Set` collapses the few repeated entries; membership is all that
is consumed). -/
def stopWords : List String :=
  ["the", "a", "an", "and", "or", "but", "in", "on", "at", "to", "for", "of", "with", "by",
   "is", "are", "was", "were", "be", "been", "being", "have", "has", "had", "do", "does", "did",
   "will", "would", "could", "should", "may", "might", "must", "can", "cannot", "cant",
   "i", "you", "he", "she", "it", "we", "they", "me", "him", "her", "us", "them",
   "this", "that", "these", "those", "my", "your", "his", "her", "its", "our", "their",
   "what", "which", "who", "when", "where", "why", "how", "all", "any", "both", "each",
   "few", "more", "most", "other", "some", "such", "no", "nor", "not", "only", "own",
   "same", "so", "than", "too", "very", "s", "t", "re", "ve", "ll", "d", "just", "now",
   "also", "back", "still", "well", "get", "go", "know", "like", "see", "think", "want",
   "really", "way", "right", "good", "great", "much", "many", "new", "first", "last",
   "long", "little", "own", "other", "old", "right", "big", "high", "different", "small",
   "large", "next", "early", "young", "important", "few", "public", "bad", "same", "able"]

/-- `stopWords.has(word)`. -/
def isStopWord (w : String) : Bool := stopWords.contains w

/-- A character of the JS `\w` class (`[A-Za-z0-9_]`). -/
def isWordChar (c : Char) : Bool := c.isAlpha || c.isDigit || c = '_'

/-- `.replace(/[^\w\s]/g, '')`: keep word characters and whitespace only. -/
def stripPunct (s : String) : String :=
  String.mk (s.data.filter (fun c => isWordChar c || jsIsSpace c))

/-- Worker for `.split(/\s+/)`: a run of whitespace is one separator, and a
leading or trailing run contributes an empty field, as in JS. -/
def jsSplitWsAux : List Char → List Char → Bool → List String
  | [], acc, _ => [String.mk acc.reverse]
  | c :: rest, acc, inSep =>
    if jsIsSpace c then
      if inSep then jsSplitWsAux rest acc true
      else String.mk acc.reverse :: jsSplitWsAux rest [] true
    else jsSplitWsAux rest (c :: acc) false

/-- `.split(/\s+/)`. -/
def jsSplitWs (s : String) : List String := jsSplitWsAux s.data [] false

/-- The tokenisation of one comment in `analyzeWordFrequency`: lowercase, strip
punctuation, split on whitespace, keep tokens longer than 2 characters that are
not stop words. -/
def wordTokens (text : String) : List String :=
  (jsSplitWs (stripPunct (jsToLower text))).filter
    (fun w => 2 < w.length && !isStopWord w)

/-- `wordCounts[word] = (wordCounts[word] || 0) + 1` on a string-keyed object:
the object's own state keeps first-insertion positions, and `objEntries` below
models how `Object.entries` reads that state back out. -/
def bumpCount : List (String × Nat) → String → List (String × Nat)
  | [], w => [(w, 1)]
  | (k, n) :: rest, w =>
    if k = w then (k, n + 1) :: rest else (k, n) :: bumpCount rest w

/-- Whether a JS object key is an array index: the canonical decimal form of an
integer below 2^32 - 1 (all digits, no leading zero unless the key is `"0"`).
Such keys enumerate before all other string keys. -/
def isArrayIndexKey (s : String) : Bool :=
  match s.data with
  | [] => false
  | c :: rest =>
    (c :: rest).all Char.isDigit &&
    (if c = '0' then rest.isEmpty else true) &&
    digitsVal (c :: rest) < 4294967295

/-- `Object.entries` on a string-keyed object: array-index-like keys come
first in ascending numeric order, then the remaining keys in insertion order
(the ECMAScript own-property enumeration order). -/
def objEntries {α : Type} (m : List (String × α)) : List (String × α) :=
  stableSort (fun a b => digitsVal a.1.data ≤ digitsVal b.1.data)
    (m.filter (fun p => isArrayIndexKey p.1)) ++
  m.filter (fun p => !isArrayIndexKey p.1)

/-- One entry of the word-frequency result (`{word, count}`). -/
structure WordFreq where
  word : String
  count : Nat
deriving DecidableEq

/-- `analyzeWordFrequency`: count the filtered tokens of every comment, read
the counts object back in `Object.entries` order, then return the top 20
entries by descending count, stably sorted — so ties keep enumeration order:
integer-like tokens first in ascending numeric order, then the rest in
first-encountered order. -/
def analyzeWordFrequency (comments : List CommentRec) : List WordFreq :=
  let wordCounts :=
    comments.foldl (fun m c => (wordTokens c.text).foldl bumpCount m) []
  ((stableSort (fun x y => y.2 ≤ x.2) (objEntries wordCounts)).take 20).map
    (fun p => ⟨p.1, p.2⟩)

/-- The tokenisation of one comment in `analyzeLikedCommentWords`: lowercase,
strip punctuation, split on whitespace, keep tokens longer than 3 characters
(no stop-word filter on this path). -/
def likedTokens (text : String) : List String :=
  (jsSplitWs (stripPunct (jsToLower text))).filter (fun w => 3 < w.length)

/-- `wordLikeScores[word]` update: each token occurrence adds the comment's
like count to `totalLikes` and 1 to `count` (occurrences, not distinct
comments). -/
def bumpScore (m : List (String × (Int × Nat))) (likes : Int) (w : String) :
    List (String × (Int × Nat)) :=
  match m with
  | [] => [(w, (likes, 1))]
  | (k, v) :: rest =>
    if k = w then (k, (v.1 + likes, v.2 + 1)) :: rest
    else (k, v) :: bumpScore rest likes w

/-- `Math.round(a / b)` for an integral numerator and positive natural
denominator: round half toward positive infinity. -/
def jsRoundDiv (a : Int) (b : Nat) : Int := Int.fdiv (2 * a + b) (2 * b)

/-- One entry of the liked-word result (`{word, avgLikes, count}`). -/
structure LikedWord where
  word : String
  avgLikes : Int
  count : Nat
deriving DecidableEq

/-- `analyzeLikedCommentWords`: sort by likes descending, keep the top
`max(1, floor(length * 0.2))` comments (`floor(n * 0.2) = n / 5` exactly for
every list length an IEEE double represents faithfully), accumulate per-token
like totals and occurrence counts, read the scores object back in
`Object.entries` order, average and round, keep entries with occurrence count
at least 2, and return the top 15 by descending average. -/
def analyzeLikedCommentWords (comments : List CommentRec) : List LikedWord :=
  let sortedByLikes :=
    stableSort (fun a b => b.like_count - a.like_count ≤ (0 : Int)) comments
  let topPercentage := max 1 (comments.length / 5)
  let topComments := sortedByLikes.take topPercentage
  let wordLikeScores := topComments.foldl
    (fun m c => (likedTokens c.text).foldl (fun m2 w => bumpScore m2 c.like_count w) m) []
  let entries := (objEntries wordLikeScores).map
    (fun p => LikedWord.mk p.1 (jsRoundDiv p.2.1 p.2.2) p.2.2)
  ((stableSort (fun x y => y.avgLikes ≤ x.avgLikes)
      (entries.filter (fun it => 2 ≤ it.count))).take 15)

/-! ## Basic lemmas about the JS-semantics helpers -/

theorem mem_foldl_insertUniq (xs : List String) (acc : List String) (x : String) :
    x ∈ xs.foldl insertUniq acc ↔ x ∈ acc ∨ x ∈ xs := by
  induction xs generalizing acc with
  | nil => simp
  | cons y ys ih =>
    rw [List.foldl_cons, ih]
    by_cases hy : y ∈ acc
    · simp only [insertUniq, if_pos hy, List.mem_cons]
      constructor
      · rintro (h | h)
        · exact Or.inl h
        · exact Or.inr (Or.inr h)
      · rintro (h | rfl | h)
        · exact Or.inl h
        · exact Or.inl hy
        · exact Or.inr h
    · simp only [insertUniq, if_neg hy, List.mem_append, List.mem_singleton, List.mem_cons]
      tauto

theorem nodup_foldl_insertUniq (xs : List String) (acc : List String) (h : acc.Nodup) :
    (xs.foldl insertUniq acc).Nodup := by
  induction xs generalizing acc with
  | nil => simpa
  | cons y ys ih =>
    rw [List.foldl_cons]
    refine ih _ ?_
    by_cases hy : y ∈ acc
    · simpa [insertUniq, hy]
    · simp [insertUniq, hy, List.nodup_append, h]

theorem mem_discoveryIds (d : Discovery) (x : String) :
    x ∈ discoveryIds d ↔
      x ∈ d.transcripts.map Prod.fst ∨ x ∈ d.summaries.map Prod.fst ∨
      x ∈ d.comments.map Prod.fst ∨ x ∈ d.videos.map Prod.fst := by
  unfold discoveryIds jsSetOfList
  rw [mem_foldl_insertUniq]
  simp [or_assoc]

theorem nodup_discoveryIds (d : Discovery) : (discoveryIds d).Nodup :=
  nodup_foldl_insertUniq _ _ List.nodup_nil

theorem countP_eq_one_of_nodup_mem {α : Type} [DecidableEq α] {l : List α} {a : α}
    (h : l.Nodup) (ha : a ∈ l) : l.countP (fun x => decide (x = a)) = 1 := by
  induction l with
  | nil => cases ha
  | cons b bs ih =>
    have hnd := List.nodup_cons.mp h
    rw [List.countP_cons]
    rcases List.mem_cons.mp ha with rfl | hmem
    · have h0 : bs.countP (fun x => decide (x = a)) = 0 :=
        List.countP_eq_zero.mpr (fun x hx => by
          simp only [decide_eq_true_eq]
          intro hxa
          exact hnd.1 (hxa ▸ hx))
      simp [h0]
    · have hne : b ≠ a := fun hba => hnd.1 (hba ▸ hmem)
      rw [ih hnd.2 hmem]
      simp [hne]

/-! ## C1: the assembler's id universe is the union of the four discovery maps -/

/-- C1: for every input, an id appearing in at least one of the four discovery
maps yields exactly one assembled record and an id appearing in none of them
(in particular a metadata-only id) yields no record; and in the end-to-end
scenario (metadata entry `AAAAAAAAAAA` with title "Test" and view count "100",
discovered only as a video file) the assembled record has
`hasVideoFile = true`, `hasTranscript = false`, `viewCount = 100` and empty
keywords. -/
theorem C1_assembler_id_universe :
    (∀ (metadata : List MetadataEntry) (d : Discovery) (kw : List (String × List String))
        (id : String),
        (buildVideoData metadata d kw).countP (fun v => decide (v.video_id = id)) =
          (if id ∈ d.transcripts.map Prod.fst ∨ id ∈ d.summaries.map Prod.fst ∨
              id ∈ d.comments.map Prod.fst ∨ id ∈ d.videos.map Prod.fst then 1 else 0))
    ∧ ((buildVideoData
          [{ video_id := "AAAAAAAAAAA", title := some "Test", view_count := some "100" }]
          ⟨[], [], [], [("AAAAAAAAAAA", "AAAAAAAAAAA.mp4")]⟩ []).map
         (fun v => (v.has_video_file, v.has_transcript, v.view_count, v.keywords)) =
        [(true, false, (100 : Int), ([] : List String))]) := by
  constructor
  · intro metadata d kw id
    unfold buildVideoData
    rw [List.countP_map]
    show (discoveryIds d).countP (fun sc => decide (sc = id)) = _
    by_cases hmem : id ∈ d.transcripts.map Prod.fst ∨ id ∈ d.summaries.map Prod.fst ∨
        id ∈ d.comments.map Prod.fst ∨ id ∈ d.videos.map Prod.fst
    · rw [if_pos hmem]
      exact countP_eq_one_of_nodup_mem (nodup_discoveryIds d)
        ((mem_discoveryIds d id).mpr hmem)
    · rw [if_neg hmem]
      refine List.countP_eq_zero.mpr (fun sc hsc => ?_)
      simp only [decide_eq_true_eq]
      rintro rfl
      exact hmem ((mem_discoveryIds d sc).mp hsc)
  · decide

/-! ## C2: `getVideos` pagination partitions the filtered/sorted result -/

theorem ceilDiv_zero_left (limit : Nat) : ceilDiv 0 limit = 0 := by
  unfold ceilDiv
  rcases Nat.eq_zero_or_pos limit with h | h
  · subst h; rfl
  · exact Nat.div_eq_of_lt (by omega)

theorem ceilDiv_succ (limit m : Nat) (hl : 0 < limit) :
    ceilDiv (m + 1) limit = m / limit + 1 := by
  unfold ceilDiv
  have h : m + 1 + limit - 1 = m + limit := by omega
  rw [h, Nat.add_div_right m hl]

theorem lt_ceilDiv_iff (limit p len : Nat) (hl : 0 < limit) :
    p < ceilDiv len limit ↔ p * limit < len := by
  cases len with
  | zero => simp [ceilDiv_zero_left]
  | succ m =>
    rw [ceilDiv_succ _ _ hl]
    constructor
    · intro h
      have hp : p ≤ m / limit := by omega
      have := (Nat.le_div_iff_mul_le hl).mp hp
      omega
    · intro h
      have hp : p * limit ≤ m := by omega
      have := (Nat.le_div_iff_mul_le hl).mpr hp
      omega

theorem len_le_ceilDiv_mul (limit len : Nat) (hl : 0 < limit) :
    len ≤ ceilDiv len limit * limit := by
  by_contra h
  push_neg at h
  have := (lt_ceilDiv_iff limit (ceilDiv len limit) len hl).mpr h
  omega

theorem ceilDiv_drop (limit m : Nat) (hl : 0 < limit) :
    ceilDiv (m + 1 - limit) limit = m / limit := by
  rcases Nat.lt_or_ge m limit with h | h
  · have h1 : m + 1 - limit = 0 := by omega
    rw [h1, ceilDiv_zero_left, Nat.div_eq_of_lt h]
  · have h1 : m + 1 - limit = (m - limit) + 1 := by omega
    rw [h1, ceilDiv_succ _ _ hl]
    have h2 : (m - limit) + limit = m := by omega
    rw [← Nat.add_div_right (m - limit) hl, h2]

theorem jsSlice_chunk_succ {α : Type} (l : List α) (limit i : Nat) :
    jsSlice l ((i + 1) * limit) ((i + 1) * limit + limit) =
      jsSlice (l.drop limit) (i * limit) (i * limit + limit) := by
  unfold jsSlice
  have h1 : (i + 1) * limit = limit + i * limit := by ring
  rw [h1, ← List.drop_drop, List.drop_take]
  have h2 : limit + i * limit + limit - limit = i * limit + limit := by omega
  rw [h2]

theorem join_chunks {α : Type} (limit : Nat) (hl : 0 < limit) :
    ∀ (n : Nat) (l : List α), l.length ≤ n →
      ((List.range (ceilDiv l.length limit)).map
        (fun i => jsSlice l (i * limit) (i * limit + limit))).flatten = l := by
  intro n
  induction n with
  | zero =>
    intro l hlen
    have h : l = [] := List.eq_nil_of_length_eq_zero (by omega)
    subst h
    simp [ceilDiv_zero_left]
  | succ n ih =>
    intro l hlen
    cases hl0 : l.length with
    | zero =>
      have h : l = [] := List.eq_nil_of_length_eq_zero hl0
      subst h
      simp [ceilDiv_zero_left]
    | succ m =>
      rw [ceilDiv_succ _ _ hl, List.range_succ_eq_map]
      rw [List.map_cons, List.map_map, List.flatten_cons]
      have hchunk : ∀ i ∈ List.range (m / limit),
          ((fun i => jsSlice l (i * limit) (i * limit + limit)) ∘ Nat.succ) i =
            (fun i => jsSlice (l.drop limit) (i * limit) (i * limit + limit)) i := by
        intro i _
        show jsSlice l ((i + 1) * limit) ((i + 1) * limit + limit) = _
        exact jsSlice_chunk_succ l limit i
      rw [List.map_congr_left hchunk]
      have hdroplen : (l.drop limit).length = m + 1 - limit := by
        simp [List.length_drop, hl0]
      have hrest : ((List.range (m / limit)).map
          (fun i => jsSlice (l.drop limit) (i * limit) (i * limit + limit))).flatten
            = l.drop limit := by
        have h := ih (l.drop limit) (by omega)
        rwa [hdroplen, ceilDiv_drop limit m hl] at h
      rw [hrest]
      show jsSlice l (0 * limit) (0 * limit + limit) ++ l.drop limit = l
      simp only [jsSlice, Nat.zero_mul, Nat.zero_add, List.drop_zero]
      exact List.take_append_drop limit l

/-- C2: at any fixed positive page size, concatenating the item lists of pages
1..totalPages of `getVideos` reproduces the whole filtered/sorted list (hence
no duplicates or omissions); `hasNext` holds exactly when `page < totalPages`,
`hasPrev` exactly when `page > 1`; and any page beyond `totalPages` has an
empty item list. -/
theorem C2_pagination_partition (videos : List Video) (f : VideoFilters) (limit : Nat)
    (hl : 0 < limit) :
    (((List.range (getVideos videos f 1 limit).totalPages).map
        (fun i => (getVideos videos f (i + 1) limit).videos)).flatten =
      sortVideos (strOrElse f.sortBy "date-desc") (filterVideos f videos))
    ∧ (∀ page : Nat, 1 ≤ page →
        ((getVideos videos f page limit).hasNext = true ↔
          page < (getVideos videos f page limit).totalPages))
    ∧ (∀ page : Nat, ((getVideos videos f page limit).hasPrev = true ↔ 1 < page))
    ∧ (∀ page : Nat, (getVideos videos f page limit).totalPages < page →
        (getVideos videos f page limit).videos = []) := by
  refine ⟨?_, ?_, ?_, ?_⟩
  · show ((List.range (ceilDiv (sortVideos (strOrElse f.sortBy "date-desc")
        (filterVideos f videos)).length limit)).map
        (fun i => jsSlice (sortVideos (strOrElse f.sortBy "date-desc")
          (filterVideos f videos)) ((i + 1 - 1) * limit) ((i + 1 - 1) * limit + limit))).flatten = _
    have hsimp : ∀ i : Nat, i + 1 - 1 = i := fun i => by omega
    simp only [hsimp]
    exact join_chunks limit hl _ _ (Nat.le_refl _)
  · intro page hpage
    show decide ((page - 1) * limit + limit < _) = true ↔ page < ceilDiv _ limit
    rw [decide_eq_true_iff]
    have hmul : (page - 1) * limit + limit = page * limit := by
      have h1 : page - 1 + 1 = page := by omega
      calc (page - 1) * limit + limit = (page - 1 + 1) * limit := by ring
        _ = page * limit := by rw [h1]
    rw [hmul, lt_ceilDiv_iff _ _ _ hl]
  · intro page
    show decide (1 < page) = true ↔ 1 < page
    exact decide_eq_true_iff
  · intro page hpage
    show jsSlice (sortVideos (strOrElse f.sortBy "date-desc") (filterVideos f videos))
      ((page - 1) * limit) ((page - 1) * limit + limit) = []
    set l := sortVideos (strOrElse f.sortBy "date-desc") (filterVideos f videos)
    have hceil : ceilDiv l.length limit < page := hpage
    have hge : ceilDiv l.length limit * limit ≤ (page - 1) * limit :=
      Nat.mul_le_mul_right limit (by omega)
    have hlen : l.length ≤ (page - 1) * limit :=
      le_trans (len_le_ceilDiv_mul limit l.length hl) hge
    unfold jsSlice
    refine List.drop_eq_nil_of_le ?_
    calc (l.take ((page - 1) * limit + limit)).length ≤ l.length := by
          simp [List.length_take]
      _ ≤ (page - 1) * limit := hlen

/-- Sample collection to instantiate the pagination theorem. -/
def c2Videos : List Video :=
  [{ video_id := "AAAAAAAAAAA", title := "b", description := none,
     published_at := some 5, view_count := 1, comment_count := 0 },
   { video_id := "BBBBBBBBBBB", title := "a", description := some "x",
     published_at := some 9, view_count := 2, comment_count := 3 }]

/-- Witness: the pagination theorem applied to a concrete two-video collection
at page size 1. -/
theorem C2_pagination_partition_witness :
    (((List.range (getVideos c2Videos {} 1 1).totalPages).map
        (fun i => (getVideos c2Videos {} (i + 1) 1).videos)).flatten =
      sortVideos (strOrElse ({} : VideoFilters).sortBy "date-desc")
        (filterVideos {} c2Videos))
    ∧ ((getVideos c2Videos {} 1 1).hasNext = true ↔
        1 < (getVideos c2Videos {} 1 1).totalPages) :=
  ⟨(C2_pagination_partition c2Videos {} 1 (by decide)).1,
   (C2_pagination_partition c2Videos {} 1 (by decide)).2.1 1 (by decide)⟩

/-! ## C8: inclusive date-range filtering against `publishedAt` -/

theorem mem_of_mem_optStrFilter {α : Type} {o : Option String} {p : String → α → Bool}
    {l : List α} {v : α} (hv : v ∈ optStrFilter o p l) : v ∈ l := by
  rcases o with _ | s
  · exact hv
  · simp only [optStrFilter] at hv
    by_cases hs : s = ""
    · simpa [hs] using hv
    · rw [if_neg hs] at hv
      exact List.mem_of_mem_filter hv

theorem mem_of_mem_optIntFilter {α : Type} {o : Option Int} {p : Int → α → Bool}
    {l : List α} {v : α} (hv : v ∈ optIntFilter o p l) : v ∈ l := by
  rcases o with _ | b
  · exact hv
  · exact List.mem_of_mem_filter hv

theorem optIntFilter_pred {α : Type} {o : Option Int} {p : Int → α → Bool}
    {l : List α} {v : α} (b : Int) (ho : o = some b)
    (hv : v ∈ optIntFilter o p l) : p b v = true := by
  subst ho
  exact (List.mem_filter.mp hv).2

/-- C8: with only a date range active, a video whose `publishedAt` lies in the
inclusive interval `[dateFrom, dateTo]` is kept by the video filter pipeline;
and under any filter set with at least one date bound active, a video whose
`publishedAt` is null (an Invalid Date, comparing as NaN) is excluded. -/
theorem C8_date_range_filter (videos : List Video) (df dt : Int) :
    (∀ v ∈ videos, ∀ t : Int, v.published_at = some t → df ≤ t → t ≤ dt →
        v ∈ filterVideos { dateFrom := some df, dateTo := some dt } videos)
    ∧ (∀ (f : VideoFilters) (v : Video), v.published_at = none →
        (f.dateFrom ≠ none ∨ f.dateTo ≠ none) → v ∉ filterVideos f videos) := by
  constructor
  · intro v hv t ht hdf hdt
    simp only [filterVideos, optStrFilter, optIntFilter]
    refine List.mem_filter.mpr ⟨List.mem_filter.mpr ⟨hv, ?_⟩, ?_⟩
    · simp [dateGe, ht, hdf]
    · simp [dateLe, ht, hdt]
  · intro f v hnull hrange hv
    simp only [filterVideos] at hv
    have hv4 := mem_of_mem_optStrFilter hv
    have hv3 := mem_of_mem_optStrFilter hv4
    rcases hrange with hfrom | hto
    · obtain ⟨b, hb⟩ := Option.ne_none_iff_exists'.mp hfrom
      have hv2 := mem_of_mem_optIntFilter hv3
      have hpred := optIntFilter_pred b hb hv2
      rw [hnull] at hpred
      simp [dateGe] at hpred
    · obtain ⟨b, hb⟩ := Option.ne_none_iff_exists'.mp hto
      have hpred := optIntFilter_pred b hb hv3
      rw [hnull] at hpred
      simp [dateLe] at hpred

/-- Witness: the date-range theorem applied to a concrete collection, keeping
the in-range video and rejecting the null-dated one. -/
theorem C8_date_range_filter_witness :
    ((c2Videos.get ⟨0, by decide⟩) ∈
      filterVideos { dateFrom := some 5, dateTo := some 9 } c2Videos)
    ∧ ({ video_id := "CCCCCCCCCCC", title := "", description := none,
         published_at := none, view_count := 0, comment_count := 0 : Video } ∉
        filterVideos { dateFrom := some 5, dateTo := some 9 } c2Videos) :=
  ⟨(C8_date_range_filter c2Videos 5 9).1 _ (by decide) 5 (by decide) (by decide) (by decide),
   (C8_date_range_filter c2Videos 5 9).2 _ _ (by decide) (Or.inl (by decide))⟩

/-! ## C4: reply grouping partitions matched replies and drops orphans -/

theorem countP_replies_eq (l : List CommentRec) (r : CommentRec) (hr : r ∈ l)
    (hrep : r.is_reply = true) :
    (groupComments l).countP (fun node => decide (r ∈ node.replies)) =
      (l.filter (fun c => !c.is_reply)).countP (fun c => parentMatches r c) := by
  unfold groupComments
  rw [List.countP_map]
  refine List.countP_congr (fun tc htc => ?_)
  have hrrep : r ∈ l.filter (fun c => c.is_reply) :=
    List.mem_filter.mpr ⟨hr, by simp [hrep]⟩
  simp only [Function.comp_apply, decide_eq_true_eq, List.mem_filter, hrrep, true_and]

/-- C4: on a per-video comment list with pairwise-distinct comment ids, the
grouped tree has every non-reply exactly once as a top-level node, every reply
whose parent id names a top-level comment in exactly one reply list, and every
reply whose parent id names no top-level comment in zero reply lists. -/
theorem C4_reply_grouping (l : List CommentRec)
    (hids : (l.map (fun c => c.comment_id)).Nodup) :
    ((groupComments l).map (fun node => node.comment) = l.filter (fun c => !c.is_reply))
    ∧ (∀ c ∈ l, c.is_reply = false →
        (groupComments l).countP (fun node => decide (node.comment = c)) = 1)
    ∧ (∀ r ∈ l, r.is_reply = true →
        (∃ c ∈ l, c.is_reply = false ∧ parentMatches r c = true) →
        (groupComments l).countP (fun node => decide (r ∈ node.replies)) = 1)
    ∧ (∀ r ∈ l, r.is_reply = true →
        (∀ c ∈ l, c.is_reply = false → parentMatches r c = false) →
        (groupComments l).countP (fun node => decide (r ∈ node.replies)) = 0) := by
  have hlnd : l.Nodup := List.Nodup.of_map _ hids
  have htopnd : (l.filter (fun c => !c.is_reply)).Nodup := hlnd.filter _
  have htopidnd : ((l.filter (fun c => !c.is_reply)).map (fun c => c.comment_id)).Nodup :=
    List.Nodup.sublist (List.Sublist.map _ (List.filter_sublist l)) hids
  refine ⟨?_, ?_, ?_, ?_⟩
  · unfold groupComments
    rw [List.map_map]
    exact List.map_id _
  · intro c hc hcrep
    unfold groupComments
    rw [List.countP_map]
    have hctop : c ∈ l.filter (fun x => !x.is_reply) :=
      List.mem_filter.mpr ⟨hc, by simp [hcrep]⟩
    have : ((fun node : CommentNode => decide (node.comment = c)) ∘
        (fun x => ⟨x, (l.filter (fun y => y.is_reply)).filter (fun y => parentMatches y x)⟩)) =
        fun x : CommentRec => decide (x = c) := rfl
    rw [this]
    exact countP_eq_one_of_nodup_mem htopnd hctop
  · intro r hr hrep hex
    obtain ⟨c0, hc0mem, hc0rep, hc0match⟩ := hex
    rw [countP_replies_eq l r hr hrep]
    rcases hp : r.parent_comment_id with _ | p
    · rw [parentMatches, hp] at hc0match
      cases hc0match
    · have hpc0 : p = c0.comment_id := by
        rw [parentMatches, hp] at hc0match
        exact of_decide_eq_true hc0match
      have hpred : ∀ c ∈ l.filter (fun x => !x.is_reply),
          parentMatches r c = true ↔ decide (c.comment_id = p) = true := by
        intro c _
        rw [parentMatches, hp]
        simp [eq_comm]
      rw [List.countP_congr hpred]
      have hmap : (l.filter (fun x => !x.is_reply)).countP (fun c => decide (c.comment_id = p)) =
          ((l.filter (fun x => !x.is_reply)).map (fun c => c.comment_id)).countP
            (fun x => decide (x = p)) := by
        rw [List.countP_map]
        rfl
      rw [hmap]
      refine countP_eq_one_of_nodup_mem htopidnd ?_
      refine List.mem_map.mpr ⟨c0, ?_, hpc0.symm⟩
      exact List.mem_filter.mpr ⟨hc0mem, by simp [hc0rep]⟩
  · intro r hr hrep hnone
    rw [countP_replies_eq l r hr hrep]
    refine List.countP_eq_zero.mpr (fun c hc => ?_)
    have hcl := List.mem_filter.mp hc
    have : c.is_reply = false := by
      have := hcl.2
      simpa using this
    simp [hnone c hcl.1 this]

/-- Sample comment list for the grouping theorem: one top-level comment, one
matched reply, one orphaned reply. -/
def c4Comments : List CommentRec :=
  [{ comment_id := "c1" },
   { comment_id := "r2", is_reply := true, parent_comment_id := some "c1" },
   { comment_id := "r3", is_reply := true, parent_comment_id := some "zz" }]

/-- Witness: the grouping theorem applied to the sample list. -/
theorem C4_reply_grouping_witness :
    ((groupComments c4Comments).map (fun node => node.comment) =
      c4Comments.filter (fun c => !c.is_reply))
    ∧ (groupComments c4Comments).countP
        (fun node => decide ((c4Comments.get ⟨1, by decide⟩) ∈ node.replies)) = 1
    ∧ (groupComments c4Comments).countP
        (fun node => decide ((c4Comments.get ⟨2, by decide⟩) ∈ node.replies)) = 0 := by
  have h := C4_reply_grouping c4Comments (by decide)
  refine ⟨h.1, ?_, ?_⟩
  · exact h.2.2.1 _ (by decide) (by decide)
      ⟨c4Comments.get ⟨0, by decide⟩, by decide, by decide, by decide⟩
  · exact h.2.2.2 _ (by decide) (by decide) (by decide)

/-! ## C10: comment pagination counts only filtered top-level comments -/

theorem insSorted_perm {α : Type} (le : α → α → Bool) (x : α) (l : List α) :
    (insSorted le x l).Perm (x :: l) := by
  induction l with
  | nil => simp [insSorted]
  | cons y ys ih =>
    unfold insSorted
    by_cases h : le x y
    · rw [if_pos h]
    · rw [if_neg h]
      exact List.Perm.trans (List.Perm.cons y ih) (List.Perm.swap x y ys)

theorem stableSort_perm {α : Type} (le : α → α → Bool) (l : List α) :
    (stableSort le l).Perm l := by
  induction l with
  | nil => exact List.Perm.refl []
  | cons x xs ih =>
    show (insSorted le x (xs.foldr (insSorted le) [])).Perm (x :: xs)
    exact List.Perm.trans (insSorted_perm le x _) (List.Perm.cons x ih)

/-- Sample comment list whose single top-level comment carries two replies. -/
def c10Comments : List CommentRec :=
  [{ comment_id := "c1" },
   { comment_id := "r2", is_reply := true, parent_comment_id := some "c1" },
   { comment_id := "r3", is_reply := true, parent_comment_id := some "c1" }]

/-- C10: `getComments` reports `total` and `totalPages` over the filtered
top-level comments only (replies and orphans are not counted), a page holds at
most `limit` grouped nodes, and on the sample list a page of size 1 holds one
node carrying two nested replies — three comment records on a size-1 page. -/
theorem C10_comment_totals (videoComments : List CommentRec) (f : CommentFilters)
    (page limit : Nat) :
    ((getComments videoComments f page limit).total =
        (filterComments f videoComments).countP (fun c => !c.is_reply))
    ∧ ((getComments videoComments f page limit).totalPages =
        ceilDiv ((filterComments f videoComments).countP (fun c => !c.is_reply)) limit)
    ∧ ((getComments videoComments f page limit).comments.length ≤ limit)
    ∧ ((getComments c10Comments {} 1 1).comments.map
          (fun n => (n.comment.comment_id, n.replies.length)) = [("c1", 2)])
    ∧ ((getComments c10Comments {} 1 1).total = 1) := by
  have hlen : ∀ (g : List CommentRec),
      (groupComments g).length = g.countP (fun c => !c.is_reply) := by
    intro g
    unfold groupComments
    rw [List.length_map, ← List.countP_eq_length_filter]
  have hperm : (sortComments (strOrElse f.sortBy "likes-desc")
      (filterComments f videoComments)).countP (fun c => !c.is_reply) =
      (filterComments f videoComments).countP (fun c => !c.is_reply) :=
    (stableSort_perm _ _).countP_eq _
  refine ⟨?_, ?_, ?_, by decide, by decide⟩
  · show (groupComments (sortComments (strOrElse f.sortBy "likes-desc")
      (filterComments f videoComments))).length = _
    rw [hlen, hperm]
  · show ceilDiv (groupComments (sortComments (strOrElse f.sortBy "likes-desc")
      (filterComments f videoComments))).length limit = _
    rw [hlen, hperm]
  · show (jsSlice (groupComments (sortComments (strOrElse f.sortBy "likes-desc")
      (filterComments f videoComments))) ((page - 1) * limit) ((page - 1) * limit + limit)).length ≤ limit
    simp only [jsSlice, List.length_drop, List.length_take]
    omega

/-! ## C3: the transcript resolver caches successful results only -/

theorem objSet_lookup_self {α : Type} (m : List (String × α)) (k : String) (v : α) :
    (objSet m k v).lookup k = some v := by
  induction m with
  | nil => simp [objSet, List.lookup]
  | cons p rest ih =>
    obtain ⟨k0, v0⟩ := p
    unfold objSet
    by_cases h : k0 = k
    · subst h
      simp [List.lookup]
    · rw [if_neg h]
      have h2 : (k == k0) = false := beq_eq_false_iff_ne.mpr (Ne.symm h)
      simp only [List.lookup, h2]
      exact ih

theorem loadTranscript_shape (w : TranscriptWorld) (cache : List (String × TranscriptPayload))
    (sc : String) :
    (∀ t, (loadTranscript w cache sc).1 = some t →
        ((loadTranscript w cache sc).2.1).lookup ("transcript_" ++ sc) = some t)
    ∧ ((loadTranscript w cache sc).1 = none → (loadTranscript w cache sc).2.1 = cache) := by
  simp only [loadTranscript, transcriptServerStep]
  repeat' split
  all_goals refine ⟨fun t ht => ?_, fun ht => ?_⟩
  all_goals
    first
      | exact Option.noConfusion ht
      | rfl
      | (rw [← Option.some_inj.mp ht]
         first
           | exact objSet_lookup_self _ _ _
           | assumption)

/-- The world refuting the exactly-one-read claim: a user directory without a
subtitles folder, an explorer index that lacks the id (its read is the first
underlying read), and a bundled server index that has it (the second). -/
def c3World : TranscriptWorld :=
  ⟨true, none, some [], true, [("AAAAAAAAAAA", "hello transcript")]⟩

/-- C3 counterexample: a first resolution of a transcript can return a payload
while issuing two underlying reads, so two consecutive calls for the same id
issue two underlying fetches/reads in total, not exactly one. -/
theorem C3_exactly_one_read_counterexample :
    ((loadTranscript c3World [] "AAAAAAAAAAA").1.isSome = true)
    ∧ ((loadTranscript c3World [] "AAAAAAAAAAA").2.2 = 2) := by decide

/-- C3 (amended): `loadTranscript` caches only successful results — after a
call that returns a payload, a repeat call returns the same payload from the
cache with zero further underlying reads; a null result stores nothing, so a
repeat call re-runs the resolution chain; and with no user directory attached
an uncached successful resolution issues exactly one fetch, hence exactly one
fetch in total across consecutive calls. -/
theorem C3_cache_success_only (w : TranscriptWorld)
    (cache : List (String × TranscriptPayload)) (sc : String) :
    (∀ t c2 n, loadTranscript w cache sc = (some t, c2, n) →
        loadTranscript w c2 sc = (some t, c2, 0))
    ∧ (∀ c2 n, loadTranscript w cache sc = (none, c2, n) → c2 = cache)
    ∧ (w.hasDirectory = false → cache.lookup ("transcript_" ++ sc) = none →
        ∀ t c2 n, loadTranscript w cache sc = (some t, c2, n) → n = 1) := by
  refine ⟨?_, ?_, ?_⟩
  · intro t c2 n h
    have h1 : (loadTranscript w cache sc).1 = some t := by rw [h]
    have h2 : (loadTranscript w cache sc).2.1 = c2 := by rw [h]
    have hc2 : List.lookup ("transcript_" ++ sc) c2 = some t :=
      h2 ▸ (loadTranscript_shape w cache sc).1 t h1
    simp only [loadTranscript]
    rw [hc2]
  · intro c2 n h
    have h1 : (loadTranscript w cache sc).1 = none := by rw [h]
    have h2 := (loadTranscript_shape w cache sc).2 h1
    rw [h] at h2
    exact h2
  · intro hdir hlk t c2 n h
    simp only [loadTranscript, transcriptServerStep, hdir, hlk] at h
    rcases hok : w.serverOk with _ | _
    · rw [hok] at h
      simp only [Bool.false_eq_true, if_false] at h
      exact Option.noConfusion (congrArg Prod.fst h)
    · rw [hok] at h
      simp only [if_true] at h
      rcases hsi : List.lookup sc w.serverIndex with _ | txt
      · rw [hsi] at h
        exact Option.noConfusion (congrArg Prod.fst h)
      · rw [hsi] at h
        have := congrArg (fun p => p.2.2) h
        simpa using this.symm

/-- Hosted-mode world for the cache witness: no user directory, bundled data
containing the id. -/
def c3HostedWorld : TranscriptWorld :=
  ⟨false, none, none, true, [("AAAAAAAAAAA", "words")]⟩

/-- The payload and cache produced by the first hosted-mode resolution. -/
def c3Payload : TranscriptPayload :=
  ⟨"AAAAAAAAAAA", "words", "included_data/transcripts.json"⟩

/-- Cache state after the first hosted-mode resolution. -/
def c3Cache1 : List (String × TranscriptPayload) :=
  [("transcript_AAAAAAAAAAA", c3Payload)]

/-- Witness: the repeat call after a concrete successful resolution returns the
cached payload with zero reads. -/
theorem C3_cache_success_only_witness :
    loadTranscript c3HostedWorld c3Cache1 "AAAAAAAAAAA" = (some c3Payload, c3Cache1, 0) :=
  (C3_cache_success_only c3HostedWorld [] "AAAAAAAAAAA").1 c3Payload c3Cache1 1 (by decide)

/-! ## C9: the 11-character id grammar over the fallback discovery path -/

/-- All keys appearing in any of the four maps of a discovery snapshot. -/
def discoveryKeys (d : Discovery) : List String :=
  d.transcripts.map Prod.fst ++ d.summaries.map Prod.fst ++
    d.comments.map Prod.fst ++ d.videos.map Prod.fst

theorem objSet_keys_subset {α : Type} (m : List (String × α)) (k : String) (v : α)
    (x : String) (hx : x ∈ (objSet m k v).map Prod.fst) :
    x ∈ m.map Prod.fst ∨ x = k := by
  induction m with
  | nil =>
    unfold objSet at hx
    simp only [List.map_cons, List.map_nil, List.mem_singleton] at hx
    exact Or.inr hx
  | cons p rest ih =>
    obtain ⟨k0, v0⟩ := p
    unfold objSet at hx
    by_cases h : k0 = k
    · rw [if_pos h] at hx
      simp only [List.map_cons, List.mem_cons] at hx ⊢
      tauto
    · rw [if_neg h] at hx
      simp only [List.map_cons, List.mem_cons] at hx ⊢
      rcases hx with h1 | h1
      · tauto
      · rcases ih h1 with h2 | h2 <;> tauto

theorem discoveryKeys_step (t s c : List (String × String)) (d : Discovery)
    (e : MetadataEntry) (x : String)
    (hx : x ∈ discoveryKeys (discoveryStep t s c d e)) :
    x ∈ discoveryKeys d ∨ x = e.video_id := by
  unfold discoveryStep at hx
  by_cases h : e.video_id ≠ ""
  · rw [if_pos h] at hx
    simp only [discoveryKeys, List.mem_append] at hx ⊢
    rcases hx with ((hx | hx) | hx) | hx
    · by_cases ht : truthyLookup t e.video_id
      · simp only [ht, if_true] at hx
        rcases objSet_keys_subset _ _ _ _ hx with h1 | h1 <;> tauto
      · simp only [ht, if_false] at hx
        tauto
    · by_cases hs : truthyLookup s e.video_id
      · simp only [hs, if_true] at hx
        rcases objSet_keys_subset _ _ _ _ hx with h1 | h1 <;> tauto
      · simp only [hs, if_false] at hx
        tauto
    · by_cases hc : truthyLookup c e.video_id
      · simp only [hc, if_true] at hx
        rcases objSet_keys_subset _ _ _ _ hx with h1 | h1 <;> tauto
      · simp only [hc, if_false] at hx
        tauto
    · rcases objSet_keys_subset _ _ _ _ hx with h1 | h1 <;> tauto
  · rw [if_neg h] at hx
    exact Or.inl hx

theorem discoveryKeys_foldl (t s c : List (String × String)) (metadata : List MetadataEntry) :
    ∀ (d0 : Discovery) (x : String),
      x ∈ discoveryKeys (metadata.foldl (discoveryStep t s c) d0) →
      x ∈ discoveryKeys d0 ∨ ∃ e ∈ metadata, e.video_id = x := by
  induction metadata with
  | nil =>
    intro d0 x hx
    exact Or.inl hx
  | cons e es ih =>
    intro d0 x hx
    rw [List.foldl_cons] at hx
    rcases ih _ x hx with h1 | h1
    · rcases discoveryKeys_step t s c d0 e x h1 with h2 | h2
      · exact Or.inl h2
      · exact Or.inr ⟨e, List.mem_cons_self e es, h2.symm⟩
    · obtain ⟨e2, he2, hid⟩ := h1
      exact Or.inr ⟨e2, List.mem_cons_of_mem e he2, hid⟩

/-- C9 counterexample: the fallback discovery path copies a metadata
`video_id` into the discovery maps without validating the 11-character grammar,
so the assembled list can carry an id (here the 5-character `"short"`) that
violates the grammar. -/
theorem C9_id_grammar_counterexample :
    ((buildVideoData [{ video_id := "short" }]
        (fallbackDiscovery [{ video_id := "short" }] [] [] []) []).map
      (fun v => v.video_id) = ["short"])
    ∧ isValidShortcode "short" = false := by decide

/-- C9 (amended): every id of a record assembled over the fallback discovery
path is one of the metadata `video_id` values, so whenever all metadata ids
satisfy the 11-character grammar, every assembled id does too; the grammar is
not enforced by the code for metadata-supplied ids. -/
theorem C9_id_grammar (metadata : List MetadataEntry)
    (t s c : List (String × String)) (kw : List (String × List String))
    (h : ∀ e ∈ metadata, isValidShortcode e.video_id = true) :
    ∀ v ∈ buildVideoData metadata (fallbackDiscovery metadata t s c) kw,
      isValidShortcode v.video_id = true := by
  intro v hv
  obtain ⟨sc, hsc, hfeq⟩ := List.mem_map.mp hv
  rw [← hfeq]
  show isValidShortcode sc = true
  have hkeys : sc ∈ discoveryKeys (fallbackDiscovery metadata t s c) := by
    have h4 := (mem_discoveryIds _ sc).mp hsc
    simp only [discoveryKeys, List.mem_append]
    tauto
  rcases discoveryKeys_foldl t s c metadata ⟨[], [], [], []⟩ sc hkeys with h1 | h1
  · simp [discoveryKeys] at h1
  · obtain ⟨e, he, hid⟩ := h1
    rw [← hid]
    exact h e he

/-- Witness: the grammar theorem applied to a concrete metadata list whose id
is grammatical. -/
theorem C9_id_grammar_witness :
    isValidShortcode
      (((buildVideoData [{ video_id := "AAAAAAAAAAA" }]
          (fallbackDiscovery [{ video_id := "AAAAAAAAAAA" }] [] [] []) []).get
        ⟨0, by decide⟩).video_id) = true :=
  C9_id_grammar [{ video_id := "AAAAAAAAAAA" }] [] [] [] [] (by decide) _
    (List.get_mem _ _ _)

/-! ## C7: numeric normalization of assembled records -/

/-- C7 counterexample: a negative numeric string in `view_count` survives
`parseInt(x) || 0` unclamped, so an assembled record can carry a negative
numeric field. -/
theorem C7_nonnegative_counterexample :
    ((buildVideoData [{ video_id := "BBBBBBBBBBB", view_count := some "-5" }]
        ⟨[], [], [], [("BBBBBBBBBBB", "f.mp4")]⟩ []).map (fun v => v.view_count) =
      [(-5 : Int)])
    ∧ ((-5 : Int) < 0) := by decide

/-- C7 (amended): each assembled numeric field equals `parseInt(field) || 0` of
the matched metadata entry (0 when no entry matches); `"abc"` yields 0 and
`"42"` yields 42; and a field can only be negative when the source string
itself parses to a negative integer — absent and non-numeric sources always
yield 0, never a negative value. -/
theorem C7_numeric_normalization :
    (∀ (metadata : List MetadataEntry) (d : Discovery) (kw : List (String × List String)),
      ∀ v ∈ buildVideoData metadata d kw,
        (∀ e, metadata.find? (fun x => x.video_id = v.video_id) = some e →
          v.view_count = parseCountField e.view_count ∧
          v.like_count = parseCountField e.like_count ∧
          v.comment_count = parseCountField e.comment_count ∧
          v.duration = parseCountField e.duration)
        ∧ (metadata.find? (fun x => x.video_id = v.video_id) = none →
            v.view_count = 0 ∧ v.like_count = 0 ∧ v.comment_count = 0 ∧ v.duration = 0))
    ∧ parseCountField (some "abc") = 0
    ∧ parseCountField (some "42") = 42
    ∧ (∀ o : Option String, parseCountField o < 0 →
        ∃ str n, o = some str ∧ jsParseInt str = some n ∧ n < 0) := by
  refine ⟨?_, by decide, by decide, ?_⟩
  · intro metadata d kw v hv
    obtain ⟨sc, hsc, hfeq⟩ := List.mem_map.mp hv
    subst hfeq
    constructor
    · intro e hfind
      simp only [buildRecord] at hfind ⊢
      rw [hfind]
      exact ⟨rfl, rfl, rfl, rfl⟩
    · intro hfind
      simp only [buildRecord] at hfind ⊢
      rw [hfind]
      exact ⟨rfl, rfl, rfl, rfl⟩
  · intro o ho
    rcases o with _ | str
    · simp [parseCountField] at ho
    · by_cases hs : str = ""
      · rw [hs] at ho
        simp [parseCountField] at ho
      · rcases hparse : jsParseInt str with _ | n
        · simp [parseCountField, hs, hparse] at ho
        · refine ⟨str, n, rfl, hparse, ?_⟩
          simp only [parseCountField, hs, if_false, hparse, Option.getD_some] at ho
          exact ho

/-- Sample entry with a negative numeric string and its discovery snapshot. -/
def c7Meta : MetadataEntry := { video_id := "BBBBBBBBBBB", view_count := some "-5" }

/-- Discovery snapshot carrying only the sample entry's video file. -/
def c7Discovery : Discovery := ⟨[], [], [], [("BBBBBBBBBBB", "f.mp4")]⟩

/-- Witness: the normalization theorem applied to the sample entry. -/
theorem C7_numeric_normalization_witness :
    ((buildVideoData [c7Meta] c7Discovery []).get ⟨0, by decide⟩).view_count =
      parseCountField c7Meta.view_count :=
  ((C7_numeric_normalization.1 [c7Meta] c7Discovery []
      ((buildVideoData [c7Meta] c7Discovery []).get ⟨0, by decide⟩)
      (List.get_mem _ _ _)).1 c7Meta (by decide)).1

/-! ## C5: word frequency pipeline, stop words and the §8 example -/

theorem insSorted_pairwise {α : Type} (le : α → α → Bool)
    (htrans : ∀ a b c, le a b = true → le b c = true → le a c = true)
    (htot : ∀ a b, le a b = true ∨ le b a = true)
    (x : α) (l : List α) (h : l.Pairwise (fun a b => le a b = true)) :
    (insSorted le x l).Pairwise (fun a b => le a b = true) := by
  induction l with
  | nil => simp [insSorted]
  | cons y ys ih =>
    unfold insSorted
    obtain ⟨h1, h2⟩ := List.pairwise_cons.mp h
    by_cases hxy : le x y = true
    · rw [if_pos hxy]
      refine List.Pairwise.cons ?_ h
      intro z hz
      rcases List.mem_cons.mp hz with rfl | hz2
      · exact hxy
      · exact htrans x y z hxy (h1 z hz2)
    · rw [if_neg hxy]
      have hyx : le y x = true := (htot x y).resolve_left hxy
      refine List.Pairwise.cons ?_ (ih h2)
      intro z hz
      have hz3 : z = x ∨ z ∈ ys := by
        have := (insSorted_perm le x ys).mem_iff.mp hz
        simpa using this
      rcases hz3 with rfl | hz2
      · exact hyx
      · exact h1 z hz2

theorem stableSort_pairwise {α : Type} (le : α → α → Bool)
    (htrans : ∀ a b c, le a b = true → le b c = true → le a c = true)
    (htot : ∀ a b, le a b = true ∨ le b a = true) (l : List α) :
    (stableSort le l).Pairwise (fun a b => le a b = true) := by
  induction l with
  | nil => simp [stableSort]
  | cons x xs ih => exact insSorted_pairwise le htrans htot x _ ih

theorem bumpCount_lookup_self (m : List (String × Nat)) (w : String) :
    (bumpCount m w).lookup w = some (((m.lookup w).getD 0) + 1) := by
  induction m with
  | nil => simp [bumpCount, List.lookup]
  | cons p rest ih =>
    obtain ⟨k, n⟩ := p
    unfold bumpCount
    by_cases h : k = w
    · subst h
      simp [List.lookup]
    · rw [if_neg h]
      have h2 : (w == k) = false := beq_eq_false_iff_ne.mpr (Ne.symm h)
      simp only [List.lookup, h2]
      exact ih

theorem bumpCount_lookup_other (m : List (String × Nat)) (w x : String) (hx : x ≠ w) :
    (bumpCount m w).lookup x = m.lookup x := by
  induction m with
  | nil =>
    simp [bumpCount, List.lookup, beq_eq_false_iff_ne.mpr hx]
  | cons p rest ih =>
    obtain ⟨k, n⟩ := p
    unfold bumpCount
    by_cases h : k = w
    · subst h
      simp only [if_pos rfl, List.lookup, beq_eq_false_iff_ne.mpr hx]
    · rw [if_neg h]
      by_cases hxk : x = k
      · subst hxk
        simp [List.lookup]
      · have h2 : (x == k) = false := beq_eq_false_iff_ne.mpr hxk
        simp only [List.lookup, h2]
        exact ih

theorem foldl_bumpCount_lookup (ws : List String) (m : List (String × Nat)) (x : String) :
    ((ws.foldl bumpCount m).lookup x).getD 0 = (m.lookup x).getD 0 + ws.count x := by
  induction ws generalizing m with
  | nil => simp
  | cons w ws ih =>
    rw [List.foldl_cons, ih]
    by_cases h : w = x
    · subst h
      rw [bumpCount_lookup_self]
      simp [List.count_cons]
      omega
    · rw [bumpCount_lookup_other m w x (Ne.symm h)]
      have h2 : (x == w) = false := beq_eq_false_iff_ne.mpr (Ne.symm h)
      simp [List.count_cons, h2]
      tauto

theorem bumpCount_keys (m : List (String × Nat)) (w x : String)
    (hx : x ∈ (bumpCount m w).map Prod.fst) : x ∈ m.map Prod.fst ∨ x = w := by
  induction m with
  | nil =>
    unfold bumpCount at hx
    simp only [List.map_cons, List.map_nil, List.mem_singleton] at hx
    exact Or.inr hx
  | cons p rest ih =>
    obtain ⟨k, n⟩ := p
    unfold bumpCount at hx
    by_cases h : k = w
    · rw [if_pos h] at hx
      simp only [List.map_cons, List.mem_cons] at hx ⊢
      tauto
    · rw [if_neg h] at hx
      simp only [List.map_cons, List.mem_cons] at hx ⊢
      rcases hx with h1 | h1
      · tauto
      · rcases ih h1 with h2 | h2 <;> tauto

theorem bumpCount_keys_nodup (m : List (String × Nat)) (w : String)
    (h : (m.map Prod.fst).Nodup) : ((bumpCount m w).map Prod.fst).Nodup := by
  induction m with
  | nil => simp [bumpCount]
  | cons p rest ih =>
    obtain ⟨k, n⟩ := p
    have hcons : (k :: rest.map Prod.fst).Nodup := by simpa using h
    obtain ⟨hk, hrest⟩ := List.nodup_cons.mp hcons
    unfold bumpCount
    by_cases hkw : k = w
    · rw [if_pos hkw]
      simpa using h
    · rw [if_neg hkw]
      simp only [List.map_cons, List.nodup_cons]
      refine ⟨?_, ih hrest⟩
      intro hmem
      rcases bumpCount_keys rest w k hmem with h1 | h1
      · exact hk h1
      · exact hkw h1

theorem foldl_bumpCount_keys (ws : List String) (m : List (String × Nat)) (x : String)
    (hx : x ∈ (ws.foldl bumpCount m).map Prod.fst) : x ∈ m.map Prod.fst ∨ x ∈ ws := by
  induction ws generalizing m with
  | nil => exact Or.inl hx
  | cons w ws ih =>
    rw [List.foldl_cons] at hx
    rcases ih _ hx with h1 | h1
    · rcases bumpCount_keys m w x h1 with h2 | h2
      · exact Or.inl h2
      · exact Or.inr (h2 ▸ List.mem_cons_self w ws)
    · exact Or.inr (List.mem_cons_of_mem w h1)

theorem foldl_bumpCount_keys_nodup (ws : List String) (m : List (String × Nat))
    (h : (m.map Prod.fst).Nodup) : ((ws.foldl bumpCount m).map Prod.fst).Nodup := by
  induction ws generalizing m with
  | nil => exact h
  | cons w ws ih =>
    rw [List.foldl_cons]
    exact ih _ (bumpCount_keys_nodup m w h)

theorem lookup_of_mem_nodupKeys {α : Type} (l : List (String × α)) (k : String) (v : α)
    (hnd : (l.map Prod.fst).Nodup) (hmem : (k, v) ∈ l) : l.lookup k = some v := by
  induction l with
  | nil => cases hmem
  | cons p rest ih =>
    obtain ⟨k0, v0⟩ := p
    have hcons : (k0 :: rest.map Prod.fst).Nodup := by simpa using hnd
    obtain ⟨hk0, hrest⟩ := List.nodup_cons.mp hcons
    rcases List.mem_cons.mp hmem with heq | hmem2
    · have hk : k = k0 := congrArg Prod.fst heq
      have hv : v = v0 := congrArg Prod.snd heq
      subst hk
      subst hv
      simp [List.lookup]
    · have hk : k ≠ k0 := by
        intro hkk
        subst hkk
        exact hk0 (List.mem_map_of_mem Prod.fst hmem2)
      simp only [List.lookup, beq_eq_false_iff_ne.mpr hk]
      exact ih hrest hmem2

theorem objEntries_perm {α : Type} (m : List (String × α)) : (objEntries m).Perm m := by
  unfold objEntries
  refine List.Perm.trans (List.Perm.append_right _ (stableSort_perm _ _)) ?_
  exact List.filter_append_perm _ m

/-- The spec §8 word-frequency example comment list. -/
def c5Comments : List CommentRec :=
  [{ comment_id := "c1", text := "great great video" },
   { comment_id := "c2", text := "great day" }]

/-- Tie example whose integer-like token is encountered after the alphabetic
one: `Object.entries` enumeration moves it first. -/
def c5TieComments : List CommentRec :=
  [{ comment_id := "c1", text := "zzzz zzzz 2024 2024" }]

/-- Tie example with alphabetic tokens only: enumeration keeps insertion
order. -/
def c5AlphaTieComments : List CommentRec :=
  [{ comment_id := "c1", text := "bbbb bbbb aaaa aaaa" }]

/-- C5 counterexample: `"great"` is a member of the fixed stop-word set, so on
the §8 example it is discarded entirely — the result is the two tokens
`"video"` and `"day"` with count 1 each, and `"great"` appears nowhere, let
alone first with count 3. Moreover ties are not generally broken by
first-encountered order: the integer-like token `"2024"`, encountered after
`"zzzz"`, enumerates first among equal counts. -/
theorem C5_word_frequency_counterexample :
    analyzeWordFrequency c5Comments = [⟨"video", 1⟩, ⟨"day", 1⟩]
    ∧ isStopWord "great" = true
    ∧ (∀ wf ∈ analyzeWordFrequency c5Comments, wf.word ≠ "great")
    ∧ analyzeWordFrequency c5TieComments = [⟨"2024", 2⟩, ⟨"zzzz", 2⟩] := by decide

/-- C5 (amended): the word-frequency analysis lowercases, strips punctuation,
splits on whitespace, discards tokens of length ≤ 2 or in the stop-word set,
counts occurrences and returns at most 20 entries in descending count order;
ties follow the JS object key enumeration — integer-like tokens first in
ascending numeric order, then the remaining tokens in first-encountered order
(first-encountered order is guaranteed only when no tied token is an
integer-like string). Every returned count is the token's exact occurrence
count over the comment list and every returned word is longer than 2
characters and not a stop word; on the §8 example `"great"` is a stop word, so
the result is `[("video", 1), ("day", 1)]`. -/
theorem C5_word_frequency (comments : List CommentRec) :
    ((analyzeWordFrequency comments).length ≤ 20)
    ∧ ((analyzeWordFrequency comments).Pairwise (fun a b => b.count ≤ a.count))
    ∧ (∀ wf ∈ analyzeWordFrequency comments,
        wf.count = ((comments.map (fun c => wordTokens c.text)).flatten).count wf.word
        ∧ 2 < wf.word.length ∧ isStopWord wf.word = false)
    ∧ (analyzeWordFrequency c5Comments = [⟨"video", 1⟩, ⟨"day", 1⟩])
    ∧ (∀ m : List (String × Nat), (∀ p ∈ m, isArrayIndexKey p.1 = false) →
        objEntries m = m)
    ∧ (analyzeWordFrequency c5TieComments = [⟨"2024", 2⟩, ⟨"zzzz", 2⟩])
    ∧ (analyzeWordFrequency c5AlphaTieComments = [⟨"bbbb", 2⟩, ⟨"aaaa", 2⟩]) := by
  have hcounts : comments.foldl (fun m c => (wordTokens c.text).foldl bumpCount m) [] =
      ((comments.map (fun c => wordTokens c.text)).flatten).foldl bumpCount [] := by
    rw [List.foldl_flatten, List.foldl_map]
  refine ⟨?_, ?_, ?_, by decide, ?_, by decide, by decide⟩
  · simp only [analyzeWordFrequency, List.length_map, List.length_take]
    exact min_le_left _ _
  · simp only [analyzeWordFrequency]
    rw [List.pairwise_map]
    have hsorted := stableSort_pairwise (fun x y : String × Nat => decide (y.2 ≤ x.2))
      (fun a b c hab hbc => by
        simp only [decide_eq_true_iff] at hab hbc ⊢
        omega)
      (fun a b => by
        simp only [decide_eq_true_iff]
        omega)
      (objEntries (comments.foldl (fun m c => (wordTokens c.text).foldl bumpCount m) []))
    have htake := List.Pairwise.sublist (List.take_sublist 20 _) hsorted
    exact htake.imp (fun h => of_decide_eq_true h)
  · intro wf hwf
    simp only [analyzeWordFrequency] at hwf
    obtain ⟨p, hp, hpeq⟩ := List.mem_map.mp hwf
    obtain ⟨w, n⟩ := p
    subst hpeq
    have hpsort : (w, n) ∈ stableSort (fun x y => decide (y.2 ≤ x.2))
        (objEntries (comments.foldl (fun m c => (wordTokens c.text).foldl bumpCount m) [])) :=
      List.take_subset 20 _ hp
    have hpentries := (stableSort_perm _ _).mem_iff.mp hpsort
    have hpcounts := (objEntries_perm _).mem_iff.mp hpentries
    rw [hcounts] at hpcounts
    have hnd := foldl_bumpCount_keys_nodup
      ((comments.map (fun c => wordTokens c.text)).flatten) [] (by simp)
    have hlook := lookup_of_mem_nodupKeys _ w n hnd hpcounts
    have hcount := foldl_bumpCount_lookup
      ((comments.map (fun c => wordTokens c.text)).flatten) [] w
    rw [hlook] at hcount
    simp only [Option.getD_some, List.lookup_nil, Option.getD_none, Nat.zero_add] at hcount
    have htok : 2 < w.length ∧ isStopWord w = false := by
      have hkey : w ∈ ((((comments.map (fun c => wordTokens c.text)).flatten).foldl
          bumpCount []).map Prod.fst) := List.mem_map_of_mem Prod.fst hpcounts
      rcases foldl_bumpCount_keys _ [] w hkey with h1 | h1
      · simp at h1
      · obtain ⟨ws, hws, hwin⟩ := List.mem_flatten.mp h1
        obtain ⟨c, hcmem, hwseq⟩ := List.mem_map.mp hws
        rw [← hwseq] at hwin
        have hfil := (List.mem_filter.mp hwin).2
        rw [Bool.and_eq_true] at hfil
        refine ⟨of_decide_eq_true hfil.1, ?_⟩
        have := hfil.2
        rwa [Bool.not_eq_true'] at this
    exact ⟨hcount, htok.1, htok.2⟩
  · intro m hm
    unfold objEntries
    have h1 : m.filter (fun p => isArrayIndexKey p.1) = [] := by
      rw [List.filter_eq_nil_iff]
      intro p hp
      simp [hm p hp]
    have h2 : m.filter (fun p => !isArrayIndexKey p.1) = m := by
      rw [List.filter_eq_self]
      intro p hp
      simp [hm p hp]
    rw [h1, h2]
    simp [stableSort]

/-- Witness: the amended word-frequency theorem instantiated on the §8 example
at the entry for `"video"`. -/
theorem C5_word_frequency_witness :
    (⟨"video", 1⟩ : WordFreq).count =
        ((c5Comments.map (fun c => wordTokens c.text)).flatten).count
          (⟨"video", 1⟩ : WordFreq).word
      ∧ 2 < (⟨"video", 1⟩ : WordFreq).word.length
      ∧ isStopWord (⟨"video", 1⟩ : WordFreq).word = false :=
  (C5_word_frequency c5Comments).2.2.1 ⟨"video", 1⟩ (by decide)

/-! ## C6: liked-word score counts occurrences, not distinct comments -/

/-- A single comment in which one long word occurs twice. -/
def c6Comments : List CommentRec :=
  [{ comment_id := "c1", text := "hello hello", like_count := 10 }]

/-- C6: the liked-word analysis increments a word's `count` once per token
occurrence, so a word occurring twice inside one top comment passes the
`count >= 2` filter (the source comments it as "Must appear in at least 2
comments") and is returned with `avgLikes = round(20 / 2) = 10` — the word
`"hello"` occurs in exactly one comment of the input yet is included. -/
theorem C6_liked_words_single_comment :
    analyzeLikedCommentWords c6Comments = [⟨"hello", 10, 2⟩]
    ∧ c6Comments.length = 1 := by decide

end BGCA

